import Mathlib

/-!
Verification of the landing-factory build/publish and autopost core.

The definitions below are shallow embeddings of the TypeScript source:
JavaScript `Date` values are modelled as a day count since the epoch plus
the milliseconds elapsed within that day (epoch day 0 is a Thursday, so
`getDay` is `(days + 4) mod 7`), JSON documents become structures of
optional fields, and the database tables touched by the publish pipeline
and the autopost run engine become explicit lists threaded through the
functions.
-/

/-! ## Cadence calculator (computeNextRunAt, apps/api/src/index.ts) -/

structure JsDate where
  days : Int
  ms : Nat
deriving DecidableEq

def totalMs (d : JsDate) : Int := d.days * 86400000 + (d.ms : Int)

def msToJsDate (t : Int) : JsDate := ⟨t / 86400000, (t % 86400000).toNat⟩

def jsGetDay (d : JsDate) : Int := (d.days + 4) % 7

def isoDowOf (d : JsDate) : Int := ((jsGetDay d + 6) % 7) + 1

def setHoursTo (d : JsDate) (hour minute : Int) : JsDate :=
  msToJsDate (d.days * 86400000 + hour * 3600000 + minute * 60000)

inductive CadenceType where
  | every_n_days
  | weekly
  | cron
deriving DecidableEq

structure CadenceJson where
  n : Option Int := none
  dow : Option Int := none
  hour : Option Int := none
  minute : Option Int := none
  minutes : Option Int := none
deriving DecidableEq

def computeNextRunAt (now : JsDate) (cadenceType : CadenceType)
    (cadenceJson : CadenceJson) : JsDate :=
  match cadenceType with
  | CadenceType.every_n_days =>
      ⟨now.days + max 1 (cadenceJson.n.getD 7), now.ms⟩
  | CadenceType.weekly =>
      let dow := cadenceJson.dow.getD 1
      let hour := cadenceJson.hour.getD 10
      let minute := cadenceJson.minute.getD 0
      let currentDow := ((jsGetDay now + 6) % 7) + 1
      let addDays := if dow - currentDow ≤ 0 then dow - currentDow + 7 else dow - currentDow
      setHoursTo ⟨now.days + addDays, now.ms⟩ hour minute
  | CadenceType.cron =>
      msToJsDate (totalMs now + max 5 (cadenceJson.minutes.getD 60) * 60000)

/-- A Wednesday (epoch day 6 is 1970-01-07, a Wednesday), at 12:00 noon. -/
def wednesdayNoon : JsDate := ⟨6, 43200000⟩

/-- The empty cadence parameter document: every field takes its default. -/
def emptyCadence : CadenceJson := ⟨none, none, none, none, none⟩

/-! ## Theme compiler radius resolution (radiusTokenToPx, renderer service) -/

def radiusUnits : List (List Char) := ["px".data, "rem".data, "em".data, "%".data]

/-- The test `/^\d+(px|rem|em|%)$/.test(v)`: a maximal digit prefix followed
exactly by one of the four unit suffixes. -/
def isCssLengthChars (cs : List Char) : Bool :=
  !(cs.takeWhile Char.isDigit).isEmpty
    && decide (cs.dropWhile Char.isDigit ∈ radiusUnits)

/-- `radiusTokenToPx(v, fallbackPx)`: `none` models a non-string input. -/
def radiusTokenToPx (v : Option String) (fallbackPx : String) : String :=
  match v with
  | none => fallbackPx
  | some s =>
      if s.data.isEmpty then fallbackPx
      else if isCssLengthChars s.data then s
      else if s = "sm" then "8px"
      else if s = "md" then "12px"
      else if s = "lg" then "14px"
      else if s = "xl" then "16px"
      else if s = "2xl" then "20px"
      else fallbackPx

/-! ## Page materializer route mapping (routeToFile, renderer service) -/

/-- `route.replace(/^\//, "")`: drop one leading slash when present. -/
def stripLeadSlash (cs : List Char) : List Char :=
  match cs with
  | c :: rest => if c = '/' then rest else c :: rest
  | [] => []

/-- `.replace(/\/$/, "")`: drop one trailing slash when present. -/
def stripTrailSlash (cs : List Char) : List Char :=
  (stripLeadSlash cs.reverse).reverse

def routeToFile (route : String) : String × String :=
  if route = "/" then ("", "index.html")
  else (String.mk (stripTrailSlash (stripLeadSlash route.data)), "index.html")

/-! ## Slot resolver (slot map loop and resolveSlotHref, renderer service) -/

structure LinkAssignment where
  placement : String
  isEnabled : Bool
  targetUrl : Option String
deriving DecidableEq

/-- `a.linkLibrary?.targetUrl ?? "#"`: the URL stored for an assignment. -/
def resolvedUrl (a : LinkAssignment) : String := a.targetUrl.getD "#"

/-- JavaScript truthiness of `slotUrls[p]`: present and not the empty string. -/
def truthyAt (m : String → Option String) (p : String) : Bool :=
  match m p with
  | some s => !s.isEmpty
  | none => false

/-- One iteration of the slot-map loop: skip disabled assignments, skip a
placement that already holds a truthy URL, otherwise store the resolved URL. -/
def addAssignment (m : String → Option String) (a : LinkAssignment) :
    String → Option String :=
  if a.isEnabled && !truthyAt m a.placement then
    fun k => if k = a.placement then some (resolvedUrl a) else m k
  else m

def buildSlotMap (links : List LinkAssignment) : String → Option String :=
  links.foldl addAssignment (fun _ => none)

def slotNameChar (c : Char) : Bool :=
  ('A' ≤ c && c ≤ 'Z') || ('0' ≤ c && c ≤ '9') || c = '_' || c = '-'

def slotRefOpen : List Char := "\x7b\x7bslot:".data

def slotRefClose : List Char := "\x7d\x7d".data

/-- The anchored match of `href` against the slot-reference pattern
(opening braces, `slot:`, a nonempty name over `[A-Z0-9_-]`, closing
braces), returning the captured name. -/
def parseSlotRef (cs : List Char) : Option (List Char) :=
  let rest := cs.drop 7
  let n := rest.take (rest.length - 2)
  if cs.take 7 = slotRefOpen ∧ rest = n ++ slotRefClose ∧ n ≠ []
      ∧ (∀ c ∈ n, slotNameChar c)
  then some n
  else none

def resolveSlotHref (href : String) (slotUrls : String → Option String) : String :=
  match parseSlotRef href.data with
  | some n => (slotUrls (String.mk n)).getD "#"
  | none => href

/-- Two enabled assignments for FOOTER (first must win), one disabled and one
enabled assignment for HERO_CTA (the enabled one must be promoted). -/
def demoLinks : List LinkAssignment :=
  [⟨"FOOTER", true, some "https://first.example"⟩,
   ⟨"FOOTER", true, some "https://second.example"⟩,
   ⟨"HERO_CTA", false, some "https://disabled.example"⟩,
   ⟨"HERO_CTA", true, some "https://promoted.example"⟩]

/-! ## Block renderer (renderBlocksWithSlots, renderer service) -/

structure CtaData where
  label : String
  href : Option String
deriving DecidableEq

structure ItemData where
  q : Option String := none
  a : Option String := none
  label : Option String := none
  href : Option String := none
deriving DecidableEq

structure BlockData where
  h1 : Option String := none
  subheading : Option String := none
  primaryCta : Option CtaData := none
  secondaryCta : Option CtaData := none
  html : Option String := none
  title : Option String := none
  company : Option String := none
  phone : Option String := none
  email : Option String := none
  address : Option String := none
  hours : Option String := none
  items : Option (List ItemData) := none
deriving DecidableEq

structure Block where
  type : String
  enabled : Option Bool
  data : BlockData
deriving DecidableEq

/-- Replace every occurrence of one character by a replacement string. -/
def replaceChar (t : Char) (r : List Char) : List Char → List Char
  | [] => []
  | c :: cs => (if c = t then r else [c]) ++ replaceChar t r cs

/-- The five chained `.replace` calls of `escapeHtml`, in source order. -/
def escapeHtml (s : String) : String :=
  String.mk (replaceChar (Char.ofNat 39) "&#39;".data
    (replaceChar (Char.ofNat 34) "&quot;".data
      (replaceChar (Char.ofNat 62) "&gt;".data
        (replaceChar (Char.ofNat 60) "&lt;".data
          (replaceChar (Char.ofNat 38) "&amp;".data s.data)))))

/-- `b.enabled !== false`: an absent flag counts as enabled. -/
def blockEnabled (b : Block) : Bool := !(b.enabled == some false)

/-- `blocks.find(b => b.type === t && b.enabled !== false)`. -/
def findBlock (blocks : List Block) (t : String) : Option Block :=
  blocks.find? (fun b => b.type == t && blockEnabled b)

def renderHero (slots : String → Option String) (b : Block) : String :=
  let h1 := b.data.h1.getD ""
  let sub := b.data.subheading.getD ""
  let href1 := match b.data.primaryCta with
    | some c => c.href.map (fun h => resolveSlotHref h slots)
    | none => none
  let href2 := match b.data.secondaryCta with
    | some c => c.href.map (fun h => resolveSlotHref h slots)
    | none => none
  let link1 := match b.data.primaryCta, href1 with
    | some c, some h =>
        if h.isEmpty then "" else
          "<a class=\"btn primary\" href=\"" ++ escapeHtml h ++ "\">"
            ++ escapeHtml c.label ++ "</a>"
    | _, _ => ""
  let link2 := match b.data.secondaryCta, href2 with
    | some c, some h =>
        if h.isEmpty then "" else
          "<a class=\"btn\" href=\"" ++ escapeHtml h ++ "\">"
            ++ escapeHtml c.label ++ "</a>"
    | _, _ => ""
  "<div class=\"container\"><div class=\"card\">\n      <h1>" ++ escapeHtml h1
    ++ "</h1>\n      <p class=\"small\">" ++ escapeHtml sub
    ++ "</p>\n      <div>\n        " ++ link1 ++ "\n        " ++ link2
    ++ "\n      </div>\n    </div></div>"

def renderContent (b : Block) : String :=
  "<div class=\"container\"><div class=\"card\">" ++ b.data.html.getD ""
    ++ "</div></div>"

/-- One line of the contacts card; rendered only for nonempty trimmed text. -/
def contactLine (label : String) (v : Option String) : List String :=
  match v with
  | some s =>
      if s.trim.isEmpty then [] else
        ["<div><b>" ++ escapeHtml label ++ ":</b> " ++ escapeHtml s ++ "</div>"]
  | none => []

def renderContacts (b : Block) : String :=
  let lines := contactLine "Company" b.data.company
    ++ contactLine "Phone" b.data.phone
    ++ contactLine "Email" b.data.email
    ++ contactLine "Address" b.data.address
    ++ contactLine "Hours" b.data.hours
  let joined := String.join lines
  "<div class=\"container\"><div class=\"card\"><h2>"
    ++ escapeHtml (b.data.title.getD "Contacts") ++ "</h2>"
    ++ (if joined.isEmpty
        then "<p class=\"small\">No details provided.</p>" else joined)
    ++ "</div></div>"

def renderFaqItem (it : ItemData) : String :=
  "<details style=\"margin:10px 0\"><summary><b>" ++ escapeHtml (it.q.getD "")
    ++ "</b></summary><div class=\"small\" style=\"margin-top:6px\">"
    ++ escapeHtml (it.a.getD "") ++ "</div></details>"

/-- The FAQ card; omitted entirely when the item list is empty. -/
def renderFaq (b : Block) : Option String :=
  let items := b.data.items.getD []
  if items.isEmpty then none
  else some ("<div class=\"container\"><div class=\"card\"><h2>FAQ</h2>"
    ++ String.join (items.map renderFaqItem) ++ "</div></div>")

def renderFooterItem (slots : String → Option String) (it : ItemData) : String :=
  "<li><a href=\"" ++ escapeHtml (resolveSlotHref (it.href.getD "#") slots)
    ++ "\">" ++ escapeHtml (it.label.getD (it.href.getD "")) ++ "</a></li>"

/-- The footer links card; omitted when items are absent or empty. -/
def renderFooterLinks (slots : String → Option String) (b : Block) : Option String :=
  match b.data.items with
  | some items =>
      if items.isEmpty then none
      else some ("<div class=\"container\"><div class=\"card\"><h3>Resources</h3><ul>"
        ++ String.join (items.map (renderFooterItem slots)) ++ "</ul></div></div>")
  | none => none

def generatorCredit : String :=
  "<div class=\"container\"><p class=\"small\">Generated by Landing Factory (SSG v0.5)</p></div>"

def renderBlocksWithSlots (blocks : List Block) (slots : String → Option String) : String :=
  let parts :=
    ((findBlock blocks "hero").map (renderHero slots)).toList
    ++ ((findBlock blocks "content").map renderContent).toList
    ++ ((findBlock blocks "contacts").map renderContacts).toList
    ++ ((findBlock blocks "faq").bind renderFaq).toList
    ++ ((findBlock blocks "footer_links").bind (renderFooterLinks slots)).toList
    ++ [generatorCredit]
  String.intercalate "\n" parts

/-- Specification-side selector: the first block of the given type whose
enabled flag is not `false`, in declaration order. -/
def firstEnabledOfType (t : String) : List Block → Option Block
  | [] => none
  | b :: bs =>
      if b.type = t ∧ b.enabled ≠ some false then some b
      else firstEnabledOfType t bs

/-- The per-type selections, one optional block per supported type. -/
def selectionList (blocks : List Block) : List Block :=
  (firstEnabledOfType "hero" blocks).toList
  ++ (firstEnabledOfType "content" blocks).toList
  ++ (firstEnabledOfType "contacts" blocks).toList
  ++ (firstEnabledOfType "faq" blocks).toList
  ++ (firstEnabledOfType "footer_links" blocks).toList

/-! ## Publish pipeline state (page versions and builds, apps/api/src/index.ts) -/

structure PageVersionRec where
  id : Nat
  pageId : Nat
  versionNumber : Nat
  isPublished : Bool
deriving DecidableEq

/-- Accumulator step realizing `findFirst(orderBy: version/buildNumber desc)`
as a maximum scan; the first maximal record encountered is kept. -/
def maxVersionStep (acc : Option PageVersionRec) (v : PageVersionRec) :
    Option PageVersionRec :=
  match acc with
  | none => some v
  | some m => if v.versionNumber > m.versionNumber then some v else m

/-- `prisma.pageVersion.findFirst({ where: { pageId }, orderBy: { versionNumber: "desc" } })`. -/
def latestVersionOf (versions : List PageVersionRec) (pageId : Nat) :
    Option PageVersionRec :=
  (versions.filter (fun v => v.pageId == pageId)).foldl maxVersionStep none

/-- One iteration of the publish loop for one page: set `isPublished := true`
on the latest version (updated by record id); no other flag is touched. -/
def promotePageLatest (versions : List PageVersionRec) (pageId : Nat) :
    List PageVersionRec :=
  match latestVersionOf versions pageId with
  | none => versions
  | some l => versions.map
      (fun v => if v.id = l.id then { v with isPublished := true } else v)

/-- The publish loop over all pages of the site. -/
def promotePages (versions : List PageVersionRec) (pageIds : List Nat) :
    List PageVersionRec :=
  pageIds.foldl promotePageLatest versions

def publishedCountFor (versions : List PageVersionRec) (pageId : Nat) : Nat :=
  (versions.filter (fun v => v.pageId == pageId && v.isPublished)).length

structure BuildRec where
  siteId : Nat
  buildNumber : Nat
  status : String
deriving DecidableEq

def maxBuildStep (acc : Option BuildRec) (b : BuildRec) : Option BuildRec :=
  match acc with
  | none => some b
  | some m => if b.buildNumber > m.buildNumber then some b else m

/-- `findFirst({ where: { siteId }, orderBy: { buildNumber: "desc" } })` over
the builds of one site. -/
def lastBuildOf (builds : List BuildRec) : Option BuildRec :=
  builds.foldl maxBuildStep none

/-- `(lastBuild?.buildNumber ?? 0) + 1`. -/
def nextBuildNumber (builds : List BuildRec) : Nat :=
  (match lastBuildOf builds with
   | some b => b.buildNumber
   | none => 0) + 1

/-- `prisma.build.create({ buildNumber: nextBuildNumber, status: "queued" })`. -/
def appendBuild (siteId : Nat) (builds : List BuildRec) : List BuildRec :=
  builds ++ [⟨siteId, nextBuildNumber builds, "queued"⟩]

/-- The builds of one site after k publishes starting from none. -/
def buildsAfterPublishes (siteId : Nat) : Nat → List BuildRec
  | 0 => []
  | k + 1 => appendBuild siteId (buildsAfterPublishes siteId k)

/-- A site with three prior builds numbered 1, 2, 3. -/
def demoBuilds3 : List BuildRec :=
  [⟨5, 1, "published"⟩, ⟨5, 2, "published"⟩, ⟨5, 3, "published"⟩]

/-! ## Autopost run engine (runAutopostSchedule, apps/api/src/index.ts)

The run engine is stateful code driving the database; it is embedded by
threading the touched tables through the functions explicitly. Exceptions
are modelled by `Except`, and the points where an awaited database or
network call can throw are driven by an environment (`failAt` names the
step inside the try block that throws, `renderOk` is the renderer
response). Record payloads (content JSON) are not modelled; record
identities, version numbers, flags and statuses are. -/

structure ScheduleRec where
  id : Nat
  siteId : Nat
  sectionName : String
  cadenceType : CadenceType
  cadenceJson : CadenceJson
  requireApproval : Bool
  isEnabled : Bool
  nextRunAt : Option JsDate := none
  lastRunAt : Option JsDate := none
deriving DecidableEq

structure PageRec where
  id : Nat
  siteId : Nat
  route : String
  pageType : String
  status : String
deriving DecidableEq

structure RunRec where
  id : Nat
  scheduleId : Nat
  status : String
  logs : Option String := none
  resultPostRoute : Option String := none
  createdPageId : Option Nat := none
deriving DecidableEq

structure Db where
  pages : List PageRec := []
  versions : List PageVersionRec := []
  runs : List RunRec := []
  builds : List BuildRec := []
  schedules : List ScheduleRec := []
  nextId : Nat := 0
deriving DecidableEq

structure AutopostEnv where
  now : JsDate
  failAt : Option Nat := none
  errMsg : String := "error"
  renderOk : Bool := true
  rendererLogs : String := ""
deriving DecidableEq

def sitePages (db : Db) (siteId : Nat) : List PageRec :=
  db.pages.filter (fun p => p.siteId == siteId)

def siteBuilds (db : Db) (siteId : Nat) : List BuildRec :=
  db.builds.filter (fun b => b.siteId == siteId)

/-- `internalPublishSite`: promote the latest version of every page of the
site and mark those pages published, allocate the next build as `queued`,
call the renderer (outcome given by the environment), then mark the build
`published` on success or `failed` (re-raising) on a renderer error. -/
def internalPublishSite (env : AutopostEnv) (siteId : Nat) (db : Db) :
    Except String Nat × Db :=
  let db1 : Db := { db with
    versions := promotePages db.versions ((sitePages db siteId).map (fun p => p.id)),
    pages := db.pages.map (fun p =>
      if p.siteId = siteId && (latestVersionOf db.versions p.id).isSome
      then { p with status := "published" } else p) }
  let bn := nextBuildNumber (siteBuilds db1 siteId)
  let db2 : Db := { db1 with builds := db1.builds ++ [⟨siteId, bn, "queued"⟩] }
  if env.renderOk then
    (Except.ok bn,
     { db2 with builds := db2.builds.map (fun b =>
         if b.siteId = siteId && b.buildNumber = bn
         then { b with status := "published" } else b) })
  else
    (Except.error ("Renderer error: " ++ env.rendererLogs),
     { db2 with builds := db2.builds.map (fun b =>
         if b.siteId = siteId && b.buildNumber = bn
         then { b with status := "failed" } else b) })

/-- `ensureIndexPage`: get-or-create keyed by the unique (siteId, route)
pair; creation adds the page and its first version (not published). -/
def ensureIndexPage (siteId : Nat) (route pageType : String) (db : Db) :
    Nat × Db :=
  match db.pages.find? (fun p => p.siteId == siteId && p.route == route) with
  | some p => (p.id, db)
  | none =>
      let pid := db.nextId
      (pid,
       { db with
           nextId := db.nextId + 2,
           pages := db.pages ++ [⟨pid, siteId, route, pageType, "draft"⟩],
           versions := db.versions ++ [⟨pid + 1, pid, 1, false⟩] })

/-- The body of the `try` block of `runAutopostSchedule`, steps in source
order: create the post page, create its first version (published iff
approval is not required), ensure the section index page, append the next
index version, persist `lastRunAt`/`nextRunAt` via the cadence calculator,
and, when approval is not required, run the nested publish. -/
def tryAutopostBody (sched : ScheduleRec) (env : AutopostEnv) (db : Db) :
    Except String (String × Nat) × Db :=
  if env.failAt = some 0 then (Except.error env.errMsg, db) else
  let sec := if sched.sectionName = "news" then "news" else "blog"
  let base := "/" ++ sec
  let route := base ++ "/" ++ sec ++ "-" ++ toString (totalMs env.now)
  let postPageId := db.nextId
  let db := { db with
    nextId := db.nextId + 1,
    pages := db.pages ++ [⟨postPageId, sched.siteId, route,
      (if sec = "blog" then "blog_post" else "news_item"), "draft"⟩] }
  if env.failAt = some 1 then (Except.error env.errMsg, db) else
  let db := { db with
    nextId := db.nextId + 1,
    versions := db.versions ++ [⟨db.nextId, postPageId, 1, !sched.requireApproval⟩] }
  if env.failAt = some 2 then (Except.error env.errMsg, db) else
  let ensured := ensureIndexPage sched.siteId base
    (if sec = "blog" then "blog_index" else "news_index") db
  let indexPageId := ensured.1
  let db := ensured.2
  if env.failAt = some 3 then (Except.error env.errMsg, db) else
  let vnum := (match latestVersionOf db.versions indexPageId with
    | some v => v.versionNumber
    | none => 0) + 1
  let db := { db with
    nextId := db.nextId + 1,
    versions := db.versions ++ [⟨db.nextId, indexPageId, vnum, !sched.requireApproval⟩] }
  if env.failAt = some 4 then (Except.error env.errMsg, db) else
  let db := { db with
    schedules := db.schedules.map (fun s =>
      if s.id = sched.id then
        { s with
          lastRunAt := some env.now,
          nextRunAt := some (computeNextRunAt env.now sched.cadenceType sched.cadenceJson) }
      else s) }
  if sched.requireApproval then (Except.ok (route, postPageId), db) else
  if env.failAt = some 5 then (Except.error env.errMsg, db) else
  let pub := internalPublishSite env sched.siteId db
  ((match pub.1 with
    | Except.ok _ => Except.ok (route, postPageId)
    | Except.error e => Except.error e), pub.2)

structure RunResult where
  ok : Bool
  message : Option String := none
  postRoute : Option String := none
deriving DecidableEq

def markRun (runs : List RunRec) (runId : Nat) (f : RunRec → RunRec) :
    List RunRec :=
  runs.map (fun r => if r.id = runId then f r else r)

/-- `runAutopostSchedule`: declined no-op when the schedule is disabled
(no run row); otherwise create a `running` run row, execute the try body,
and mark the run `success` with the result payload and created page id, or
`failed` with the error message while re-raising. -/
def runAutopostSchedule (sched : ScheduleRec) (env : AutopostEnv) (db : Db) :
    Except String RunResult × Db :=
  if !sched.isEnabled then
    (Except.ok { ok := false, message := some "Schedule disabled" }, db)
  else
    let runId := db.nextId
    let db1 : Db := { db with
      nextId := db.nextId + 1,
      runs := db.runs ++ [{ id := runId, scheduleId := sched.id, status := "running" }] }
    let tb := tryAutopostBody sched env db1
    match tb.1 with
    | Except.ok rp =>
        (Except.ok { ok := true, postRoute := some rp.1 },
         { tb.2 with runs := markRun tb.2.runs runId (fun r =>
             { r with
               status := "success",
               resultPostRoute := some rp.1,
               createdPageId := some rp.2 }) })
    | Except.error e =>
        (Except.error e,
         { tb.2 with runs := markRun tb.2.runs runId (fun r =>
             { r with status := "failed", logs := some e }) })

def emptyDb : Db := {}

def demoSchedule : ScheduleRec :=
  { id := 100, siteId := 5, sectionName := "blog",
    cadenceType := CadenceType.every_n_days, cadenceJson := { n := some 1 },
    requireApproval := false, isEnabled := true }

def demoScheduleDisabled : ScheduleRec := { demoSchedule with isEnabled := false }

def demoEnv : AutopostEnv := { now := wednesdayNoon }

def demoEnvFail : AutopostEnv :=
  { now := wednesdayNoon, failAt := some 2, errMsg := "boom" }

/-! ## Theorems -/

theorem totalMs_msToJsDate (t : Int) : totalMs (msToJsDate t) = t := by
  simp only [totalMs, msToJsDate]
  omega

/-- C2: for a weekly cadence with `dow` in 1..7, `hour` in 0..23 and `minute`
in 0..59 (defaults 1, 10, 0), the result has time-of-day exactly
`hour:minute:00.000`, lands on ISO day-of-week `dow`, and its day offset from
`now` is `dow - currentDow + 7` when the target day is today or already past
this week (`dow ≤ currentDow`) and `dow - currentDow` otherwise. -/
theorem weekly_cadence_rolls_to_target_dow (now : JsDate) (json : CadenceJson)
    (hdow1 : 1 ≤ json.dow.getD 1) (hdow7 : json.dow.getD 1 ≤ 7)
    (hh0 : 0 ≤ json.hour.getD 10) (hh23 : json.hour.getD 10 ≤ 23)
    (hm0 : 0 ≤ json.minute.getD 0) (hm59 : json.minute.getD 0 ≤ 59) :
    ((computeNextRunAt now CadenceType.weekly json).ms : Int)
        = json.hour.getD 10 * 3600000 + json.minute.getD 0 * 60000
    ∧ isoDowOf (computeNextRunAt now CadenceType.weekly json) = json.dow.getD 1
    ∧ (computeNextRunAt now CadenceType.weekly json).days - now.days
        = (if json.dow.getD 1 ≤ isoDowOf now
           then json.dow.getD 1 - isoDowOf now + 7
           else json.dow.getD 1 - isoDowOf now) := by
  simp only [computeNextRunAt, setHoursTo, msToJsDate, isoDowOf, jsGetDay]
  split_ifs <;> refine ⟨by omega, by omega, by omega⟩

/-- Witness for C2: from Wednesday noon, the default weekly cadence
(`dow = 1`, `hour = 10`) yields the next Monday at 10:00:00.000 — five days
later, never the same week. -/
theorem weekly_cadence_rolls_witness :
    ((computeNextRunAt wednesdayNoon CadenceType.weekly emptyCadence).ms : Int) = 36000000
    ∧ isoDowOf (computeNextRunAt wednesdayNoon CadenceType.weekly emptyCadence) = 1
    ∧ (computeNextRunAt wednesdayNoon CadenceType.weekly emptyCadence).days
        - wednesdayNoon.days = 5 := by
  have h := weekly_cadence_rolls_to_target_dow wednesdayNoon emptyCadence
    (by decide) (by decide) (by decide) (by decide) (by decide) (by decide)
  have hcd : isoDowOf wednesdayNoon = 3 := by decide
  rw [hcd] at h
  simpa using h

/-- C3: `every_n_days` adds `max 1 n` days (default `n = 7`) keeping the
time-of-day, and `cron` adds `max 5 minutes` minutes (default 60), so
`minutes = 2` is clamped to the 5-minute floor. -/
theorem interval_cadence_formulas (now : JsDate) (json : CadenceJson) :
    (computeNextRunAt now CadenceType.every_n_days json).days
        = now.days + max 1 (json.n.getD 7)
    ∧ (computeNextRunAt now CadenceType.every_n_days json).ms = now.ms
    ∧ (computeNextRunAt now CadenceType.every_n_days emptyCadence).days = now.days + 7
    ∧ totalMs (computeNextRunAt now CadenceType.cron json)
        = totalMs now + max 5 (json.minutes.getD 60) * 60000
    ∧ computeNextRunAt now CadenceType.cron { minutes := some 2 }
        = computeNextRunAt now CadenceType.cron { minutes := some 5 } := by
  refine ⟨rfl, rfl, by norm_num [computeNextRunAt, emptyCadence],
    totalMs_msToJsDate _, by norm_num [computeNextRunAt]⟩

/-- C10: for a weekly cadence with parameters in range and a well-formed
`now`, the computed next run is strictly later than `now`, and the day
offset added is always between 1 and 7. -/
theorem weekly_cadence_strictly_future (now : JsDate) (json : CadenceJson)
    (hms : now.ms < 86400000)
    (hdow1 : 1 ≤ json.dow.getD 1) (hdow7 : json.dow.getD 1 ≤ 7)
    (hh0 : 0 ≤ json.hour.getD 10) (hh23 : json.hour.getD 10 ≤ 23)
    (hm0 : 0 ≤ json.minute.getD 0) (hm59 : json.minute.getD 0 ≤ 59) :
    totalMs now < totalMs (computeNextRunAt now CadenceType.weekly json)
    ∧ 1 ≤ (computeNextRunAt now CadenceType.weekly json).days - now.days
    ∧ (computeNextRunAt now CadenceType.weekly json).days - now.days ≤ 7 := by
  simp only [totalMs, computeNextRunAt, setHoursTo, msToJsDate, jsGetDay]
  split_ifs <;> refine ⟨by omega, by omega, by omega⟩

/-- Witness for C10 at Wednesday noon with the default weekly parameters. -/
theorem weekly_cadence_strictly_future_witness :
    totalMs wednesdayNoon
      < totalMs (computeNextRunAt wednesdayNoon CadenceType.weekly emptyCadence)
    ∧ 1 ≤ (computeNextRunAt wednesdayNoon CadenceType.weekly emptyCadence).days
        - wednesdayNoon.days
    ∧ (computeNextRunAt wednesdayNoon CadenceType.weekly emptyCadence).days
        - wednesdayNoon.days ≤ 7 :=
  weekly_cadence_strictly_future wednesdayNoon emptyCadence (by decide)
    (by decide) (by decide) (by decide) (by decide) (by decide) (by decide)

theorem isCssLengthChars_iff (cs : List Char) :
    isCssLengthChars cs = true ↔
      ∃ p u, cs = p ++ u ∧ p ≠ [] ∧ (∀ c ∈ p, Char.isDigit c) ∧ u ∈ radiusUnits := by
  constructor
  · intro h
    simp only [isCssLengthChars, Bool.and_eq_true, Bool.not_eq_true',
      List.isEmpty_eq_false_iff_exists_mem, decide_eq_true_eq] at h
    obtain ⟨h1, h2⟩ := h
    refine ⟨cs.takeWhile Char.isDigit, cs.dropWhile Char.isDigit,
      (List.takeWhile_append_dropWhile _ _).symm, ?_, ?_, h2⟩
    · intro hnil
      rcases h1 with ⟨c, hc⟩
      rw [hnil] at hc
      exact absurd hc (List.not_mem_nil c)
    · intro c hc
      exact List.mem_takeWhile_imp hc
  · rintro ⟨p, u, rfl, hp, hdig, hu⟩
    have ht : (p ++ u).takeWhile Char.isDigit = p ++ u.takeWhile Char.isDigit :=
      List.takeWhile_append_of_pos hdig
    have hd : (p ++ u).dropWhile Char.isDigit = u.dropWhile Char.isDigit :=
      List.dropWhile_append_of_pos hdig
    have hu1 : u.takeWhile Char.isDigit = [] ∧ u.dropWhile Char.isDigit = u := by
      simp only [radiusUnits, List.mem_cons, List.not_mem_nil, or_false] at hu
      rcases hu with rfl | rfl | rfl | rfl <;> exact ⟨by decide, by decide⟩
    simp only [isCssLengthChars, ht, hd, hu1.1, hu1.2, List.append_nil,
      Bool.and_eq_true, Bool.not_eq_true', decide_eq_true_eq]
    constructor
    · simpa using hp
    · exact hu

/-- C4: the radius resolution maps the tokens sm, md, lg, xl, 2xl to
8px, 12px, 14px, 16px, 20px; returns any literal CSS length (a nonempty
digit string followed by px, rem, em or %) unchanged; and returns the
caller-supplied fallback on every other value, including non-strings. -/
theorem radius_resolution_spec :
    (∀ fb : String,
      radiusTokenToPx (some "sm") fb = "8px"
      ∧ radiusTokenToPx (some "md") fb = "12px"
      ∧ radiusTokenToPx (some "lg") fb = "14px"
      ∧ radiusTokenToPx (some "xl") fb = "16px"
      ∧ radiusTokenToPx (some "2xl") fb = "20px")
    ∧ (∀ (p u : List Char) (fb : String), p ≠ [] → (∀ c ∈ p, Char.isDigit c) →
        u ∈ radiusUnits →
        radiusTokenToPx (some (String.mk (p ++ u))) fb = String.mk (p ++ u))
    ∧ (∀ (s : String) (fb : String),
        (¬ ∃ p u, s.data = p ++ u ∧ p ≠ [] ∧ (∀ c ∈ p, Char.isDigit c) ∧ u ∈ radiusUnits) →
        s ≠ "sm" → s ≠ "md" → s ≠ "lg" → s ≠ "xl" → s ≠ "2xl" →
        radiusTokenToPx (some s) fb = fb)
    ∧ (∀ fb : String, radiusTokenToPx none fb = fb) := by
  refine ⟨fun fb => ⟨rfl, rfl, rfl, rfl, rfl⟩, ?_, ?_, fun fb => rfl⟩
  · intro p u fb hp hdig hu
    have hcss : isCssLengthChars (p ++ u) = true :=
      (isCssLengthChars_iff _).mpr ⟨p, u, rfl, hp, hdig, hu⟩
    have hne : (p ++ u).isEmpty = false := by
      cases p with
      | nil => exact absurd rfl hp
      | cons c cs => rfl
    simp only [radiusTokenToPx, String.data, hne, hcss, Bool.false_eq_true,
      if_false, if_true]
  · intro s fb hno h1 h2 h3 h4 h5
    have hcss : isCssLengthChars s.data = false := by
      cases hc : isCssLengthChars s.data with
      | false => rfl
      | true => exact absurd ((isCssLengthChars_iff s.data).mp hc) hno
    simp [radiusTokenToPx, hcss, h1, h2, h3, h4, h5]

/-- Witness for C4: the literal length 10px passes through untouched, and the
unrecognized value (the empty string) falls back to the supplied default. -/
theorem radius_resolution_witness :
    radiusTokenToPx (some "10px") "16px" = "10px"
    ∧ radiusTokenToPx (some "") "16px" = "16px" := by
  constructor
  · have h := radius_resolution_spec.2.1 ['1', '0'] "px".data "16px"
      (by decide) (by decide) (by decide)
    have he : String.mk (['1', '0'] ++ "px".data) = "10px" := by decide
    rw [he] at h
    exact h
  · refine radius_resolution_spec.2.2.1 "" "16px" ?_
      (by decide) (by decide) (by decide) (by decide) (by decide)
    rintro ⟨p, u, h, hp, hdig, hu⟩
    have h0 : p ++ u = ([] : List Char) := by
      have : ("" : String).data = [] := rfl
      rw [this] at h
      exact h.symm
    exact hp (List.append_eq_nil.mp h0).1

theorem stripLeadSlash_append (x l : List Char) (hx : x ≠ []) :
    stripLeadSlash (x ++ l) = stripLeadSlash x ++ l := by
  cases x with
  | nil => exact absurd rfl hx
  | cons c rest =>
      simp only [List.cons_append, stripLeadSlash]
      split_ifs <;> rfl

theorem stripTrailSlash_append_slash (y : List Char) :
    stripTrailSlash (y ++ ['/']) = y := by
  simp only [stripTrailSlash, List.reverse_append, List.reverse_cons,
    List.reverse_nil, List.nil_append, List.cons_append, stripLeadSlash]
  simp

theorem stripTrailSlash_no_slash (y : List Char) (hy : y.getLast? ≠ some '/') :
    stripTrailSlash y = y := by
  rw [stripTrailSlash]
  cases hrev : y.reverse with
  | nil =>
      have : y = [] := by simpa using congrArg List.reverse hrev
      simp [this, stripLeadSlash]
  | cons c cs =>
      have hc : c ≠ '/' := by
        intro hceq
        apply hy
        rw [← List.head?_reverse, hrev, hceq]
        rfl
      rw [stripLeadSlash, if_neg hc, ← hrev, List.reverse_reverse]

theorem getLast?_stripLeadSlash (x : List Char) :
    (stripLeadSlash x).getLast? = x.getLast? ∨ stripLeadSlash x = [] := by
  cases x with
  | nil => exact Or.inr rfl
  | cons c rest =>
      rw [stripLeadSlash]
      split_ifs with hc
      · cases rest with
        | nil => exact Or.inr rfl
        | cons d ds => exact Or.inl List.getLast?_cons_cons.symm
      · exact Or.inl rfl

/-- C9: for a nonempty route that does not already end in a slash, appending
one trailing slash does not change the computed output file location, and the
output file is always index.html inside the computed directory. -/
theorem route_trailing_slash_collapses (r : String)
    (h1 : r.data ≠ []) (h2 : r.data.getLast? ≠ some '/') :
    routeToFile (r ++ "/") = routeToFile r
    ∧ (routeToFile r).2 = "index.html" := by
  have hdata : (r ++ "/").data = r.data ++ ['/'] := by
    rw [String.data_append]
  constructor
  · have hr1 : r ++ "/" ≠ "/" := by
      intro he
      have hd : (r ++ "/").data = ("/" : String).data := by rw [he]
      rw [hdata] at hd
      have hlen := congrArg List.length hd
      simp at hlen
      exact h1 (List.eq_nil_of_length_eq_zero hlen)
    have hr2 : r ≠ "/" := by
      intro he
      rw [he] at h2
      exact h2 rfl
    rw [routeToFile, routeToFile, if_neg hr1, if_neg hr2]
    have hkey : stripTrailSlash (stripLeadSlash (r ++ "/").data)
        = stripTrailSlash (stripLeadSlash r.data) := by
      rw [hdata, stripLeadSlash_append r.data ['/'] h1, stripTrailSlash_append_slash]
      rcases getLast?_stripLeadSlash r.data with hl | hl
      · rw [stripTrailSlash_no_slash _ (by rw [hl]; exact h2)]
      · rw [hl]
        rfl
    rw [hkey]
  · rw [routeToFile]
    split_ifs <;> rfl

/-- Witness for C9: the routes /contacts and /contacts/ produce the same
output location, namely contacts/index.html. -/
theorem route_trailing_slash_witness :
    routeToFile "/contacts/" = routeToFile "/contacts"
    ∧ (routeToFile "/contacts").2 = "index.html" := by
  have h := route_trailing_slash_collapses "/contacts" (by decide) (by decide)
  have he : "/contacts" ++ "/" = "/contacts/" := by decide
  rw [he] at h
  exact h

theorem foldl_addAssignment_spec (links : List LinkAssignment) :
    ∀ (m : String → Option String),
      (∀ a ∈ links, resolvedUrl a ≠ "") →
      (∀ k s, m k = some s → s ≠ "") →
      ∀ p, List.foldl addAssignment m links p
        = (m p).or
            ((links.find? (fun a => a.isEnabled && a.placement == p)).map resolvedUrl) := by
  induction links with
  | nil =>
      intro m _ _ p
      cases hmp : m p <;> simp [hmp]
  | cons a links ih =>
      intro m hlinks hm p
      have hltail : ∀ x ∈ links, resolvedUrl x ≠ "" :=
        fun x hx => hlinks x (List.mem_cons_of_mem a hx)
      rw [List.foldl_cons]
      by_cases ha : a.isEnabled
      · by_cases ht : truthyAt m a.placement
        · have hadd : addAssignment m a = m := by
            rw [addAssignment, if_neg]
            simp [ha, ht]
          rw [hadd, ih m hltail hm p]
          by_cases hp : a.placement = p
          · have hsome : ∃ s, m p = some s := by
              rw [← hp]
              revert ht
              rw [truthyAt]
              cases m a.placement with
              | none => intro ht; exact absurd ht (by simp)
              | some s => intro _; exact ⟨s, rfl⟩
            rcases hsome with ⟨s, hs⟩
            rw [hs]
            rfl
          · rw [List.find?_cons_of_neg]
            simp [ha, hp]
        · have hmp : m a.placement = none := by
            revert ht
            rw [truthyAt]
            cases hma : m a.placement with
            | none => intro _; rfl
            | some s =>
                intro ht
                have hts : ¬(!s.isEmpty) = true := by simpa using ht
                have hempty : s = "" := by
                  cases hse : s.isEmpty with
                  | true => exact (String.isEmpty_iff s).mp hse
                  | false => rw [hse] at hts; exact absurd rfl hts
                exact absurd hempty (hm a.placement s hma)
          have hadd : addAssignment m a
              = fun k => if k = a.placement then some (resolvedUrl a) else m k := by
            rw [addAssignment, if_pos]
            simp [ha, ht]
          have hm2 : ∀ k s, (fun k => if k = a.placement
              then some (resolvedUrl a) else m k) k = some s → s ≠ "" := by
            intro k s hks
            simp only [] at hks
            split_ifs at hks with hk
            · cases hks
              exact hlinks a (List.mem_cons_self a links)
            · exact hm k s hks
          rw [hadd, ih _ hltail hm2 p]
          by_cases hp : p = a.placement
          · rw [List.find?_cons_of_pos]
            · simp only [if_pos hp, hp, hmp]
              rfl
            · simp [ha, hp]
          · rw [List.find?_cons_of_neg]
            · simp only [if_neg hp]
            · simp [ha]
              intro hpl
              exact absurd hpl.symm hp
      · have hadd : addAssignment m a = m := by
          rw [addAssignment, if_neg]
          simp [ha]
        rw [hadd, ih m hltail hm p, List.find?_cons_of_neg]
        simp [ha]

theorem parseSlotRef_complete (n : List Char) (hn : n ≠ [])
    (hall : ∀ c ∈ n, slotNameChar c) :
    parseSlotRef (slotRefOpen ++ n ++ slotRefClose) = some n := by
  have hlen : slotRefOpen.length = 7 := rfl
  have h1 : (slotRefOpen ++ n ++ slotRefClose).take 7 = slotRefOpen := by
    rw [List.append_assoc, ← hlen, List.take_left]
  have h2 : (slotRefOpen ++ n ++ slotRefClose).drop 7 = n ++ slotRefClose := by
    rw [List.append_assoc, ← hlen, List.drop_left]
  have h3 : (n ++ slotRefClose).take ((n ++ slotRefClose).length - 2) = n := by
    have hl2 : (n ++ slotRefClose).length - 2 = n.length := by
      simp [slotRefClose]
    rw [hl2, List.take_left]
  simp only [parseSlotRef, h1, h2, h3, eq_self_iff_true, true_and]
  rw [if_pos ⟨hn, hall⟩]

theorem parseSlotRef_sound (cs n : List Char) (h : parseSlotRef cs = some n) :
    cs = slotRefOpen ++ n ++ slotRefClose ∧ n ≠ [] ∧ ∀ c ∈ n, slotNameChar c := by
  simp only [parseSlotRef] at h
  set q := (cs.drop 7).take ((cs.drop 7).length - 2) with hq
  split_ifs at h with hc
  · obtain ⟨h1, h2, h3, h4⟩ := hc
    injection h with hn2
    subst hn2
    refine ⟨?_, h3, h4⟩
    rw [List.append_assoc, ← h2, ← h1]
    exact (List.take_append_drop 7 cs).symm

/-- C5: the slot map sends each placement to the resolved URL of the first
enabled assignment for it, in stored order (given that stored URLs are
nonempty, which the URL validation on the link library guarantees);
an href of the exact form described by the slot-reference pattern resolves to
the mapped URL, with the fallback when the placement has no resolution;
and any other href passes through unchanged. -/
theorem slot_resolution_spec :
    (∀ links : List LinkAssignment, (∀ a ∈ links, resolvedUrl a ≠ "") →
      ∀ p, buildSlotMap links p
        = (links.find? (fun a => a.isEnabled && a.placement == p)).map resolvedUrl)
    ∧ (∀ (name : List Char) (m : String → Option String),
        name ≠ [] → (∀ c ∈ name, slotNameChar c) →
        resolveSlotHref (String.mk (slotRefOpen ++ name ++ slotRefClose)) m
          = (m (String.mk name)).getD "#")
    ∧ (∀ (href : String) (m : String → Option String),
        (¬ ∃ name, href.data = slotRefOpen ++ name ++ slotRefClose
            ∧ name ≠ [] ∧ ∀ c ∈ name, slotNameChar c) →
        resolveSlotHref href m = href) := by
  refine ⟨?_, ?_, ?_⟩
  · intro links hlinks p
    rw [buildSlotMap, foldl_addAssignment_spec links _ hlinks (by intro k s h; cases h) p]
    rfl
  · intro name m hn hall
    rw [resolveSlotHref]
    have hdata : (String.mk (slotRefOpen ++ name ++ slotRefClose)).data
        = slotRefOpen ++ name ++ slotRefClose := rfl
    rw [hdata, parseSlotRef_complete name hn hall]
  · intro href m hno
    rw [resolveSlotHref]
    cases hp : parseSlotRef href.data with
    | none => rfl
    | some n =>
        obtain ⟨heq, hne, hall⟩ := parseSlotRef_sound _ _ hp
        exact absurd ⟨n, heq, hne, hall⟩ hno

/-- Witness for C5: on the demo assignments, FOOTER resolves to the first of
its two enabled assignments, HERO_CTA skips the disabled assignment and
promotes the next enabled one, a slot reference href resolves through the
map, and a plain href passes through unchanged. -/
theorem slot_resolution_witness :
    buildSlotMap demoLinks "FOOTER" = some "https://first.example"
    ∧ buildSlotMap demoLinks "HERO_CTA" = some "https://promoted.example"
    ∧ resolveSlotHref "\x7b\x7bslot:FOOTER\x7d\x7d" (buildSlotMap demoLinks)
        = "https://first.example"
    ∧ resolveSlotHref "/contacts" (buildSlotMap demoLinks) = "/contacts" := by
  have hurls : ∀ a ∈ demoLinks, resolvedUrl a ≠ "" := by decide
  have h1 : buildSlotMap demoLinks "FOOTER" = some "https://first.example" := by
    rw [slot_resolution_spec.1 demoLinks hurls "FOOTER"]
    decide
  have h2 : buildSlotMap demoLinks "HERO_CTA" = some "https://promoted.example" := by
    rw [slot_resolution_spec.1 demoLinks hurls "HERO_CTA"]
    decide
  refine ⟨h1, h2, ?_, ?_⟩
  · have h3 := slot_resolution_spec.2.1 "FOOTER".data (buildSlotMap demoLinks)
      (by decide) (by decide)
    have he : String.mk (slotRefOpen ++ "FOOTER".data ++ slotRefClose)
        = "\x7b\x7bslot:FOOTER\x7d\x7d" := by decide
    have he2 : String.mk "FOOTER".data = "FOOTER" := rfl
    rw [he, he2, h1] at h3
    exact h3
  · refine slot_resolution_spec.2.2 "/contacts" (buildSlotMap demoLinks) ?_
    rintro ⟨nm, h, -, -⟩
    have h7 := congrArg (List.take 7) h
    have hop : (slotRefOpen ++ nm ++ slotRefClose).take 7 = slotRefOpen := by
      rw [List.append_assoc, show (7 : Nat) = slotRefOpen.length from rfl,
        List.take_left]
    rw [hop] at h7
    exact absurd h7 (by decide)

theorem findBlock_eq_firstEnabled (blocks : List Block) (t : String) :
    findBlock blocks t = firstEnabledOfType t blocks := by
  induction blocks with
  | nil => rfl
  | cons b bs ih =>
      rw [findBlock] at ih
      rw [findBlock, firstEnabledOfType]
      by_cases hc : b.type = t ∧ b.enabled ≠ some false
      · rw [if_pos hc, List.find?_cons_of_pos]
        simp [blockEnabled, hc.1, hc.2]
      · rw [if_neg hc, List.find?_cons_of_neg, ih]
        intro habs
        apply hc
        simpa [blockEnabled] using habs

theorem firstEnabledOfType_props (t : String) (blocks : List Block) (b : Block)
    (h : firstEnabledOfType t blocks = some b) :
    b.type = t ∧ b.enabled ≠ some false := by
  induction blocks with
  | nil => cases h
  | cons x bs ih =>
      rw [firstEnabledOfType] at h
      split_ifs at h with hc
      · injection h with h2
        subst h2
        exact hc
      · exact ih h

theorem find?_selSeg (blocks : List Block) (t t' : String) :
    ((firstEnabledOfType t' blocks).toList).find?
        (fun b => b.type == t && blockEnabled b)
      = if t' = t then firstEnabledOfType t blocks else none := by
  cases hf : firstEnabledOfType t' blocks with
  | none =>
      split_ifs with h
      · subst h
        rw [hf]
        rfl
      · rfl
  | some b =>
      obtain ⟨hbt, hbe⟩ := firstEnabledOfType_props t' blocks b hf
      split_ifs with h
      · subst h
        rw [Option.toList_some, List.find?_cons_of_pos, hf]
        simp [blockEnabled, hbt, hbe]
      · rw [Option.toList_some, List.find?_cons_of_neg]
        · rfl
        · simp only [blockEnabled, Bool.and_eq_true, beq_iff_eq, Bool.not_eq_true',
            beq_eq_false_iff_ne, ne_eq, not_and]
          intro habs
          rw [hbt] at habs
          exact absurd habs h

/-- C6: the block renderer selects, for each supported type (hero, content,
contacts, faq, footer_links), exactly the first block of that type whose
enabled flag is not false (an absent flag counts as enabled): the find-based
selection equals the first-enabled-occurrence rule, appending later blocks
never changes an existing selection, and the rendered output coincides with
rendering only the per-type selections — so at most one instance per type is
rendered and later duplicates are ignored. -/
theorem block_renderer_first_match :
    (∀ (blocks : List Block) (t : String),
      findBlock blocks t = firstEnabledOfType t blocks)
    ∧ (∀ (t : String) (bs more : List Block),
        firstEnabledOfType t (bs ++ more)
          = (firstEnabledOfType t bs).or (firstEnabledOfType t more))
    ∧ (∀ (blocks : List Block) (slots : String → Option String),
        renderBlocksWithSlots blocks slots
          = renderBlocksWithSlots (selectionList blocks) slots) := by
  refine ⟨fun blocks t => findBlock_eq_firstEnabled blocks t, ?_, ?_⟩
  · intro t bs more
    induction bs with
    | nil => rfl
    | cons b bs ih =>
        rw [List.cons_append, firstEnabledOfType, firstEnabledOfType]
        split_ifs with h
        · rfl
        · exact ih
  · intro blocks slots
    have hsel : ∀ t : String, (t = "hero" ∨ t = "content" ∨ t = "contacts"
        ∨ t = "faq" ∨ t = "footer_links") →
        findBlock (selectionList blocks) t = firstEnabledOfType t blocks := by
      intro t ht
      rw [findBlock, selectionList]
      simp only [List.find?_append, find?_selSeg blocks t]
      rcases ht with rfl | rfl | rfl | rfl | rfl <;> simp
    simp only [renderBlocksWithSlots]
    rw [hsel "hero" (Or.inl rfl),
      hsel "content" (Or.inr (Or.inl rfl)),
      hsel "contacts" (Or.inr (Or.inr (Or.inl rfl))),
      hsel "faq" (Or.inr (Or.inr (Or.inr (Or.inl rfl)))),
      hsel "footer_links" (Or.inr (Or.inr (Or.inr (Or.inr rfl)))),
      findBlock_eq_firstEnabled blocks "hero",
      findBlock_eq_firstEnabled blocks "content",
      findBlock_eq_firstEnabled blocks "contacts",
      findBlock_eq_firstEnabled blocks "faq",
      findBlock_eq_firstEnabled blocks "footer_links"]

theorem maxBuild_foldl_spec (builds : List BuildRec) :
    ∀ (acc : Option BuildRec) (m : BuildRec),
      builds.foldl maxBuildStep acc = some m →
      (m ∈ builds ∨ acc = some m)
      ∧ (∀ b ∈ builds, b.buildNumber ≤ m.buildNumber)
      ∧ (∀ a, acc = some a → a.buildNumber ≤ m.buildNumber) := by
  induction builds with
  | nil =>
      intro acc m h
      rw [List.foldl_nil] at h
      refine ⟨Or.inr h, by simp, ?_⟩
      intro a ha
      rw [ha] at h
      injection h with h2
      rw [h2]
  | cons b bs ih =>
      intro acc m h
      rw [List.foldl_cons] at h
      have hsome : ∃ c, maxBuildStep acc b = some c := by
        cases acc with
        | none => exact ⟨b, rfl⟩
        | some a =>
            rw [maxBuildStep]
            split_ifs
            · exact ⟨b, rfl⟩
            · exact ⟨a, rfl⟩
      obtain ⟨c, hc⟩ := hsome
      rw [hc] at h
      obtain ⟨hmem, hbound, hacc⟩ := ih (some c) m h
      have hcprops : b.buildNumber ≤ c.buildNumber
          ∧ (∀ a, acc = some a → a.buildNumber ≤ c.buildNumber)
          ∧ (c = b ∨ acc = some c) := by
        cases acc with
        | none =>
            rw [maxBuildStep] at hc
            injection hc with h2
            subst h2
            exact ⟨le_refl _, by simp, Or.inl rfl⟩
        | some a =>
            rw [maxBuildStep] at hc
            split_ifs at hc with hgt
            · injection hc with h2
              subst h2
              refine ⟨le_refl _, ?_, Or.inl rfl⟩
              intro x hx
              injection hx with h3
              subst h3
              omega
            · injection hc with h2
              subst h2
              refine ⟨by omega, ?_, Or.inr rfl⟩
              intro x hx
              injection hx with h3
              subst h3
              exact le_refl _
      have hcm : c.buildNumber ≤ m.buildNumber := hacc c rfl
      refine ⟨?_, ?_, ?_⟩
      · rcases hmem with hm | hm
        · exact Or.inl (List.mem_cons_of_mem b hm)
        · injection hm with h2
          subst h2
          rcases hcprops.2.2 with rfl | hcc
          · exact Or.inl (List.mem_cons_self _ _)
          · exact Or.inr hcc
      · intro x hx
        rcases List.mem_cons.mp hx with rfl | hxs
        · exact le_trans hcprops.1 hcm
        · exact hbound x hxs
      · intro a ha
        exact le_trans (hcprops.2.1 a ha) hcm

theorem foldl_maxBuildStep_isSome (bs : List BuildRec) :
    ∀ a : BuildRec, ∃ m, bs.foldl maxBuildStep (some a) = some m := by
  induction bs with
  | nil => intro a; exact ⟨a, rfl⟩
  | cons b bs ih =>
      intro a
      rw [List.foldl_cons]
      have : ∃ c, maxBuildStep (some a) b = some c := by
        rw [maxBuildStep]
        split_ifs
        · exact ⟨b, rfl⟩
        · exact ⟨a, rfl⟩
      obtain ⟨c, hc⟩ := this
      rw [hc]
      exact ih c

theorem lastBuildOf_append (l : List BuildRec) (x : BuildRec) :
    lastBuildOf (l ++ [x]) = maxBuildStep (lastBuildOf l) x := by
  rw [lastBuildOf, lastBuildOf, List.foldl_append, List.foldl_cons, List.foldl_nil]

theorem lastBuildOf_publishes (siteId : Nat) :
    ∀ k : Nat, lastBuildOf (buildsAfterPublishes siteId k)
      = if k = 0 then none else some ⟨siteId, k, "queued"⟩ := by
  intro k
  induction k with
  | zero => rfl
  | succ k ih =>
      rw [buildsAfterPublishes, appendBuild, lastBuildOf_append, ih, nextBuildNumber, ih]
      cases k with
      | zero => rfl
      | succ j =>
          rw [if_neg (by omega), if_neg (by omega)]
          simp [maxBuildStep]

/-- C8: a publish allocates build number 1 when the site has no builds;
otherwise the previous highest build number plus one, strictly greater than
every existing number; and k publishes from scratch yield exactly the build
numbers 1, 2, ..., k — strictly increasing from 1. -/
theorem build_numbering_spec :
    nextBuildNumber [] = 1
    ∧ (∀ builds : List BuildRec, builds ≠ [] →
        ∃ m ∈ builds, nextBuildNumber builds = m.buildNumber + 1
          ∧ ∀ b ∈ builds, b.buildNumber ≤ m.buildNumber)
    ∧ (∀ (builds : List BuildRec) (b : BuildRec), b ∈ builds →
        b.buildNumber < nextBuildNumber builds)
    ∧ (∀ (siteId k : Nat),
        (buildsAfterPublishes siteId k).map (fun b => b.buildNumber)
          = (List.range k).map (fun i => i + 1)) := by
  have hlast : ∀ builds : List BuildRec, builds ≠ [] →
      ∃ m, lastBuildOf builds = some m ∧ m ∈ builds
        ∧ ∀ b ∈ builds, b.buildNumber ≤ m.buildNumber := by
    intro builds hne
    cases builds with
    | nil => exact absurd rfl hne
    | cons b bs =>
        obtain ⟨m, hm⟩ := foldl_maxBuildStep_isSome bs b
        have hm2 : lastBuildOf (b :: bs) = some m := by
          rw [lastBuildOf, List.foldl_cons]
          exact hm
        obtain ⟨hmem, hbound, _⟩ := maxBuild_foldl_spec (b :: bs) none m
          (by rw [← lastBuildOf]; exact hm2)
        refine ⟨m, hm2, ?_, hbound⟩
        rcases hmem with h | h
        · exact h
        · cases h
  refine ⟨rfl, ?_, ?_, ?_⟩
  · intro builds hne
    obtain ⟨m, hm, hmem, hbound⟩ := hlast builds hne
    refine ⟨m, hmem, ?_, hbound⟩
    rw [nextBuildNumber, hm]
  · intro builds b hb
    have hne : builds ≠ [] := by
      intro habs
      rw [habs] at hb
      exact absurd hb (List.not_mem_nil b)
    obtain ⟨m, hm, _, hbound⟩ := hlast builds hne
    rw [nextBuildNumber, hm]
    exact Nat.lt_succ_of_le (hbound b hb)
  · intro siteId k
    induction k with
    | zero => rfl
    | succ k ih =>
        rw [buildsAfterPublishes, appendBuild, List.map_append, ih, List.range_succ,
          List.map_append]
        have : nextBuildNumber (buildsAfterPublishes siteId k) = k + 1 := by
          rw [nextBuildNumber, lastBuildOf_publishes siteId k]
          cases k with
          | zero => rfl
          | succ j => rw [if_neg (by omega)]
        rw [this]
        rfl

/-- Witness for C8: a site with builds numbered 1, 2, 3 gets build 4 next,
and the previous maximum (3) is strictly below the allocated number. -/
theorem build_numbering_witness :
    nextBuildNumber demoBuilds3 = 4
    ∧ (∃ m ∈ demoBuilds3, nextBuildNumber demoBuilds3 = m.buildNumber + 1
        ∧ ∀ b ∈ demoBuilds3, b.buildNumber ≤ m.buildNumber)
    ∧ (⟨5, 3, "published"⟩ : BuildRec).buildNumber < nextBuildNumber demoBuilds3 := by
  refine ⟨by decide, build_numbering_spec.2.1 demoBuilds3 (by decide),
    build_numbering_spec.2.2.1 demoBuilds3 ⟨5, 3, "published"⟩ (by decide)⟩

/-- C1 (counterexample evidence): a page with a previously published version
1 and a newer draft version 2; the publish promotion sets version 2 published
but never clears version 1, so afterwards the page has two published
versions — the at-most-one invariant is not enforced by the pipeline. -/
theorem publish_leaves_two_published_versions :
    promotePageLatest [⟨1, 10, 1, true⟩, ⟨2, 10, 2, false⟩] 10
      = [⟨1, 10, 1, true⟩, ⟨2, 10, 2, true⟩]
    ∧ publishedCountFor
        (promotePageLatest [⟨1, 10, 1, true⟩, ⟨2, 10, 2, false⟩] 10) 10 = 2 := by
  exact ⟨by decide, by decide⟩

theorem ensureIndexPage_runs (siteId : Nat) (route pt : String) (db : Db) :
    (ensureIndexPage siteId route pt db).2.runs = db.runs := by
  rw [ensureIndexPage]
  cases db.pages.find? (fun p => p.siteId == siteId && p.route == route) <;> rfl

theorem internalPublishSite_runs (env : AutopostEnv) (siteId : Nat) (db : Db) :
    (internalPublishSite env siteId db).2.runs = db.runs := by
  rw [internalPublishSite]
  split_ifs <;> rfl

set_option maxHeartbeats 2000000 in
theorem tryAutopostBody_runs (sched : ScheduleRec) (env : AutopostEnv) (db : Db) :
    (tryAutopostBody sched env db).2.runs = db.runs := by
  simp only [tryAutopostBody]
  split_ifs <;> (try dsimp only) <;>
    (try rw [internalPublishSite_runs]) <;> (try dsimp only) <;>
    (try rw [ensureIndexPage_runs])

set_option maxHeartbeats 2000000 in
theorem tryAutopostBody_ok_page (sched : ScheduleRec) (env : AutopostEnv)
    (db : Db) (route : String) (pid : Nat)
    (h : (tryAutopostBody sched env db).1 = Except.ok (route, pid)) :
    pid = db.nextId := by
  simp only [tryAutopostBody] at h
  split_ifs at h <;> dsimp only at h <;> try (split at h)
  all_goals simp at h
  all_goals first | exact h.2 | exact h.2.symm

/-- C7: a disabled schedule yields the declined no-op result and leaves the
database (in particular the run table) untouched; an enabled schedule gets a
run row (with the allocated id) that ends `failed` carrying exactly the
re-raised error message whenever any step of the try block throws, and ends
`success` carrying the result payload route and the created post page id
when the body completes. -/
theorem autopost_run_state_machine (sched : ScheduleRec) (env : AutopostEnv) (db : Db) :
    (sched.isEnabled = false →
      runAutopostSchedule sched env db
        = (Except.ok { ok := false, message := some "Schedule disabled" }, db))
    ∧ (sched.isEnabled = true → ∀ e : String,
        (runAutopostSchedule sched env db).1 = Except.error e →
        ∃ r ∈ (runAutopostSchedule sched env db).2.runs,
          r.id = db.nextId ∧ r.scheduleId = sched.id
            ∧ r.status = "failed" ∧ r.logs = some e)
    ∧ (sched.isEnabled = true → ∀ res : RunResult,
        (runAutopostSchedule sched env db).1 = Except.ok res →
        res.ok = true
        ∧ ∃ r ∈ (runAutopostSchedule sched env db).2.runs,
          r.id = db.nextId ∧ r.scheduleId = sched.id
            ∧ r.status = "success" ∧ r.resultPostRoute = res.postRoute
            ∧ r.createdPageId = some (db.nextId + 1)) := by
  refine ⟨?_, ?_, ?_⟩
  · intro h
    rw [runAutopostSchedule, if_pos (by simp [h])]
  · intro h e
    rw [runAutopostSchedule, if_neg (by simp [h])]
    intro herr
    dsimp only at herr ⊢
    split at herr
    · exact absurd herr (by simp)
    · rename_i e2 heq
      dsimp only at herr
      injection herr with h2
      subst h2
      dsimp only
      rw [tryAutopostBody_runs]
      dsimp only
      rw [markRun, List.map_append]
      refine ⟨{ id := db.nextId,
                scheduleId := sched.id,
                status := "failed",
                logs := some e2,
                resultPostRoute := none,
                createdPageId := none },
        List.mem_append_right _ ?_, rfl, rfl, rfl, rfl⟩
      simp
  · intro h res
    rw [runAutopostSchedule, if_neg (by simp [h])]
    intro hok
    dsimp only at hok ⊢
    split at hok
    · rename_i rp heq
      dsimp only at hok
      injection hok with h2
      subst h2
      have hpid : rp.2 = db.nextId + 1 :=
        tryAutopostBody_ok_page sched env _ rp.1 rp.2 heq
      refine ⟨rfl, ?_⟩
      dsimp only
      rw [tryAutopostBody_runs]
      dsimp only
      rw [markRun, List.map_append]
      refine ⟨{ id := db.nextId,
                scheduleId := sched.id,
                status := "success",
                logs := none,
                resultPostRoute := some rp.1,
                createdPageId := some rp.2 },
        List.mem_append_right _ ?_, rfl, rfl, rfl, rfl, congrArg some hpid⟩
      simp
    · exact absurd hok (by simp)

/-- Witness for C7: the disabled demo schedule declines without touching the
database; with a failure injected inside the try block the run row ends
failed carrying the thrown message; with no failure the run row ends
success carrying the generated post route and created page id. -/
theorem autopost_run_state_machine_witness :
    runAutopostSchedule demoScheduleDisabled demoEnv emptyDb
        = (Except.ok { ok := false, message := some "Schedule disabled" }, emptyDb)
    ∧ (∃ r ∈ (runAutopostSchedule demoSchedule demoEnvFail emptyDb).2.runs,
        r.id = emptyDb.nextId ∧ r.scheduleId = demoSchedule.id
          ∧ r.status = "failed" ∧ r.logs = some "boom")
    ∧ (∃ r ∈ (runAutopostSchedule demoSchedule demoEnv emptyDb).2.runs,
        r.id = emptyDb.nextId ∧ r.scheduleId = demoSchedule.id
          ∧ r.status = "success"
          ∧ r.resultPostRoute = some "/blog/blog-561600000"
          ∧ r.createdPageId = some (emptyDb.nextId + 1)) := by
  refine ⟨(autopost_run_state_machine demoScheduleDisabled demoEnv emptyDb).1 rfl,
    (autopost_run_state_machine demoSchedule demoEnvFail emptyDb).2.1 rfl "boom"
      rfl, ?_⟩
  have h := (autopost_run_state_machine demoSchedule demoEnv emptyDb).2.2 rfl
    { ok := true, postRoute := some "/blog/blog-561600000" } rfl
  simpa using h.2
